import Mathlib

/-!
Shallow embedding of the core pipeline of the ml-anomaly-detection
repository (src/src/utils.py and src/src/lambda_handler.py), together with
theorems settling the frozen claims about it.

Modelling conventions:
* A dataframe row is a `Row`; a dataframe is a `List Row` in the dataframe's
  physical row order.  The SQL query of lambda_handler.py delivers rows
  ordered by timestamp descending, and `pandas.groupby` preserves the
  within-group row order while sorting group keys ascending.
* Timestamps are whole seconds since an epoch (`ℤ`).  The pairs in the
  claims involve whole-second timestamps only.
* `pandas.Timedelta.seconds` is the seconds component of the normalized
  timedelta, i.e. `(Δ in seconds) mod 86400` with a nonnegative result
  (sign carried by the days component) — see `tdSeconds`.
* The haversine distance is an external real-valued function; all claims are
  independent of its values, so the embedding is parametrised by an
  arbitrary function `hav : ℚ → ℚ → ℚ → ℚ → ℚ` standing for
  `haversine((event_lat, event_long), (facility_lat, facility_long), METERS)`.
* Fallible pandas operations are modelled in `Except String`:
  `Timestamp - ''` raises (the `start_time = str()` initial state of
  `_process_facility_df`), assigning a column of mismatched length raises,
  and `pd.concat` of an empty list of frames raises.
-/

namespace MLAD

/-- One row of the joined query result (the RawEvent of the spec).
Event type 13 is START, event type 9 is END. -/
structure Row where
  timestamp : ℤ
  event : ℕ
  event_latitude : ℚ
  event_longitude : ℚ
  facility_latitude : ℚ
  facility_longitude : ℚ
  revision : ℚ
  person_of_interest_id : ℕ
  facility_uuid : ℕ
deriving DecidableEq

/-- Stand-in type for the external haversine call: arguments are
event latitude/longitude and facility latitude/longitude. -/
def Hav : Type := ℚ → ℚ → ℚ → ℚ → ℚ

/-- Seconds component of a normalized timedelta of `d` whole seconds:
`pandas.Timedelta(d, unit='s').seconds = d mod 86400` (nonnegative,
the sign is carried by the days component). -/
def tdSeconds (d : ℤ) : ℤ := d % 86400

/-- The three feature columns built by `_process_facility_df` for one row. -/
structure FeatVals where
  elapsed_time : ℤ
  distance : ℚ
  save_and_exit_count : ℕ
deriving DecidableEq

/-- A featurized dataframe row: the original row plus the three feature
columns (the FeaturizedRecord of the spec once filtered to END rows). -/
structure FeatRow where
  row : Row
  elapsed_time : ℤ
  distance : ℚ
  save_and_exit_count : ℕ
deriving DecidableEq

/-- Ordering used by `df_.sort_values(by='timestamp')`. -/
def rowLE (a b : Row) : Prop := a.timestamp ≤ b.timestamp

instance : DecidableRel rowLE := fun a b => Int.decLe a.timestamp b.timestamp

/-- `df_.sort_values(by='timestamp')`: ascending sort by timestamp. -/
def sortAsc (l : List Row) : List Row := l.insertionSort rowLE

/-- The `for row in df_.sort_values(by='timestamp').index:` loop body of
`_process_facility_df`, walking rows in ascending timestamp order.
State: the current `start_time` (`none` models the initial `str()` value,
whose use in `end_time - start_time` raises) and the running
`number_of_save_and_exit_count`.  A START (13) records its timestamp as the
open start and appends a zero placeholder row; an END (9) increments the
counter and appends elapsed seconds, haversine distance and the counter;
any other event appends nothing. -/
def createFeaturesWalk (hav : Hav) : Option ℤ → ℕ → List Row → Except String (List FeatVals)
  | _, _, [] => .ok []
  | start?, cnt, r :: rs =>
    if r.event = 13 then
      (createFeaturesWalk hav (some r.timestamp) cnt rs).map (⟨0, 0, 0⟩ :: ·)
    else if r.event = 9 then
      match start? with
      | none => .error "TypeError: unsupported operand type for Timestamp and str"
      | some ts =>
        (createFeaturesWalk hav (some ts) (cnt + 1) rs).map
          (⟨tdSeconds (r.timestamp - ts),
            hav r.event_latitude r.event_longitude r.facility_latitude r.facility_longitude,
            cnt + 1⟩ :: ·)
    else
      createFeaturesWalk hav start? cnt rs

/-- Attach computed feature values to a dataframe row. -/
def mkFeatRow (r : Row) (v : FeatVals) : FeatRow :=
  ⟨r, v.elapsed_time, v.distance, v.save_and_exit_count⟩

/-- `_process_facility_df` (utils.py lines 92-133): walk the rows in
ascending timestamp order collecting the three feature lists, then
`reverse()` all three lists and assign them positionally as columns of the
dataframe in its original row order (a list of the wrong length raises
pandas' length-mismatch ValueError). -/
def process_facility_df (hav : Hav) (df : List Row) : Except String (List FeatRow) :=
  match createFeaturesWalk hav none 0 (sortAsc df) with
  | .error e => .error e
  | .ok vals =>
    let rvals := vals.reverse
    if rvals.length = df.length then
      .ok (List.zipWith mkFeatRow df rvals)
    else
      .error "ValueError: Length of values does not match length of index"

/-- `create_event_data_features` (utils.py lines 75-89): process each
per-facility dataframe, dropping (with a printed diagnostic, see
`create_event_data_features_log`) every group whose processing raised, then
`pd.concat` the survivors — which raises when the list is empty. -/
def create_event_data_features (hav : Hav) (dfs : List (List Row)) : Except String (List FeatRow) :=
  let processed := dfs.filterMap (fun g => (process_facility_df hav g).toOption)
  if processed.isEmpty then .error "ValueError: No objects to concatenate"
  else .ok processed.flatten

/-- The facility uuids printed by the `except` branch of
`create_event_data_features`: one entry per group whose processing raised,
named by `df['facility_uuid'].unique()[0]`, the uuid of the group's first
row. -/
def create_event_data_features_log (hav : Hav) (dfs : List (List Row)) : List ℕ :=
  dfs.filterMap (fun g =>
    match process_facility_df hav g with
    | .error _ => g.head?.map (·.facility_uuid)
    | .ok _ => none)

/-- `[y for _, y in df.groupby(key)]`: group keys sorted ascending, each
group keeping the dataframe's row order. -/
def groupByKey {α : Type} (key : α → ℕ) (df : List α) : List (List α) :=
  (((df.map key).dedup).insertionSort (· ≤ ·)).map (fun k => df.filter (fun r => key r = k))

/-- `get_save_and_exit_df` (utils.py lines 136-140): group by facility_uuid,
featurize, keep only END (event 9) rows. -/
def get_save_and_exit_df (hav : Hav) (df : List Row) : Except String (List FeatRow) :=
  (create_event_data_features hav (groupByKey (·.facility_uuid) df)).map
    (fun l => l.filter (fun fr => fr.row.event = 9))

/-! ### HistoricalAggregator: `get_means_df` (utils.py lines 148-165)

`get_means_df` groups the featurized END rows by `person_of_interest_id`,
sorts each group by timestamp **descending**, then computes
`df_.rolling(window='7d', on='timestamp', closed='both').mean()` for the
four feature columns.  For a monotonically decreasing on-column, pandas'
variable window at position `i` spans the rows at positions `start..i`
where `start` is the first position `j` with
`timestamp[j] ≤ timestamp[i] + 7 days` (both endpoints closed) — i.e. the
positionally preceding rows, whose timestamps are the **later** ones, within
`[t, t + 7d]`.  `rollingGo` embeds this directly: the accumulator `pre`
holds the rows already passed (all with timestamps ≥ the current one). -/

/-- A row of the output of `get_means_df`: the featurized row plus the four
rolling means. -/
structure MeanRow where
  row : FeatRow
  mean_elapsed_time : ℚ
  mean_distance : ℚ
  mean_revision : ℚ
  mean_save_and_exit_count : ℚ
deriving DecidableEq

/-- Mean of a feature over a window of rows (`Series.mean`). -/
def avgOf (f : FeatRow → ℚ) (l : List FeatRow) : ℚ := (l.map f).sum / l.length

/-- The elapsed_time feature as a rational. -/
def featElapsed (fr : FeatRow) : ℚ := (fr.elapsed_time : ℚ)

/-- The distance feature. -/
def featDistance (fr : FeatRow) : ℚ := fr.distance

/-- The revision feature (carried on the underlying row). -/
def featRevision (fr : FeatRow) : ℚ := fr.row.revision

/-- The save_and_exit_count feature as a rational. -/
def featCnt (fr : FeatRow) : ℚ := (fr.save_and_exit_count : ℚ)

/-- The pandas variable window at the current row `r`, given the rows `pre`
already passed in iteration order: the passed rows (later timestamps, the
group being sorted descending) and `r` itself, restricted to timestamps
`≤ r.timestamp + 7 days`, both endpoints closed. -/
def windowAt (pre : List FeatRow) (r : FeatRow) : List FeatRow :=
  (pre ++ [r]).filter (fun x => x.row.timestamp ≤ r.row.timestamp + 604800)

/-- One pass of the rolling-mean computation over a group already sorted
descending by timestamp; `pre` accumulates the rows already visited. -/
def rollingGo : List FeatRow → List FeatRow → List MeanRow
  | _, [] => []
  | pre, r :: rest =>
    ⟨r, avgOf featElapsed (windowAt pre r), avgOf featDistance (windowAt pre r),
     avgOf featRevision (windowAt pre r), avgOf featCnt (windowAt pre r)⟩ ::
      rollingGo (pre ++ [r]) rest

/-- Descending ordering used by `df_.sort_values(by='timestamp', ascending=False)`. -/
def featRowGE (a b : FeatRow) : Prop := b.row.timestamp ≤ a.row.timestamp

instance : DecidableRel featRowGE := fun a b => Int.decLe b.row.timestamp a.row.timestamp

/-- Sort a per-actor group descending by timestamp. -/
def sortDesc (l : List FeatRow) : List FeatRow := l.insertionSort featRowGE

/-- `get_means_df` (utils.py lines 148-165): per-actor groups (keys
ascending), each sorted descending by timestamp, rolling 7-day means of the
four features, concatenated back. -/
def get_means_df (df : List FeatRow) : List MeanRow :=
  ((groupByKey (fun fr => fr.row.person_of_interest_id) df).map
    (fun g => rollingGo [] (sortDesc g))).flatten

/-! ### ScoreInterpreter: `get_score_and_percentile` (lambda_handler.py lines 90-94) -/

/-- The JSON body returned by the anomaly-scoring endpoint. -/
structure Scores where
  predicted_decision_scores : List ℚ
  fitted_decision_scores : List ℚ
deriving DecidableEq

/-- `scipy.stats.percentileofscore(ref, score)` with the default
`kind='rank'`: with `left` the number of reference values `< score` and
`right` the number `≤ score`, the percentile is
`(left + right + (1 if right > left else 0)) * 50 / n`. -/
def percentileofscore (ref : List ℚ) (score : ℚ) : ℚ :=
  let left := (ref.filter (fun x => x < score)).length
  let right := (ref.filter (fun x => x ≤ score)).length
  ((left : ℚ) + right + (if left < right then 1 else 0)) * 50 / ref.length

/-- `get_score_and_percentile` (lambda_handler.py lines 90-94): return the
raw predicted scores and their percentiles within the fitted reference
distribution (elementwise over the predicted score array). -/
def get_score_and_percentile (s : Scores) : List ℚ × List ℚ :=
  (s.predicted_decision_scores,
   s.predicted_decision_scores.map (percentileofscore s.fitted_decision_scores))

/-- Modelled from the spec wording (not from the source): the conventional
"mean" percentile-of-score rule the spec ascribes to the code — count of
reference values strictly below the score, plus half the count of values
equal to it, divided by the reference size, times 100. -/
def percentileOfScoreMeanRule (ref : List ℚ) (score : ℚ) : ℚ :=
  (((ref.filter (fun x => x < score)).length : ℚ)
    + ((ref.filter (fun x => x = score)).length : ℚ) / 2) / ref.length * 100

/-! ### `get_shap_values` (lambda_handler.py lines 119-135)

The endpoint call `get_prediction` composed with
`pd.DataFrame.from_dict` is abstracted as a function
`endpoint : List α → List β` from input rows to attribution rows.  The
asyncio dispatch (`loop.run_in_executor` per slice, `asyncio.gather`)
returns results indexed by the position of the submitted slice, so the
concurrent execution is observationally the in-order list map below.
`pd.concat` of zero results raises. -/

/-- The sub-batches `data.iloc[i:i + size] for i in range(0, len(data), size)`. -/
def batchSlices {α : Type} (size : ℕ) (data : List α) : List (List α) :=
  (List.range ((data.length + size - 1) / size)).map
    (fun k => (data.drop (k * size)).take size)

/-- `get_shap_values`: map the endpoint over the sub-batches and concatenate
the results in sub-batch order (`pd.concat` raising when there is nothing to
concatenate).  The source's batch size parameter defaults to 1000. -/
def get_shap_values {α β : Type} (endpoint : List α → List β) (size : ℕ)
    (data : List α) : Except String (List β) :=
  let results := (batchSlices size data).map endpoint
  if results.isEmpty then .error "ValueError: No objects to concatenate"
  else .ok results.flatten

/-! ### Orchestrator: `handler` (lambda_handler.py lines 138-162)

The handler is a straight-line sequence with no exception handling: read,
featurize, compute the event branch, compute the actor branch, write the
event table, write the actor table, commit.  The branch computations and
the two table writes are abstracted as `Except`-valued collaborators; the
model records which tables have been appended when the run ends. -/

/-- Name of the event-level sink table. -/
def EVENT_PREDICTED_TABLE : String := "event_predicted"

/-- Name of the actor-level sink table. -/
def PERSON_OF_INTEREST_PREDICTED_TABLE : String := "person_of_interest_predicted"

/-- Outcome of a run: a fatal uncaught exception (with the tables already
appended before it was raised) or completion (with the appended tables). -/
inductive RunResult (τ : Type) where
  | fatal : String → List (String × τ) → RunResult τ
  | done : List (String × τ) → RunResult τ
deriving DecidableEq

/-- `handler`: sequential composition with no exception handling.
`branchA` is `get_event_predictions`, `branchB` is
`get_person_of_interest_predictions`, `writeA`/`writeB` the two `to_sql`
appends, in source order.  An exception anywhere propagates immediately;
whatever was already appended remains (append semantics, no rollback). -/
def handler {τ : Type} (branchA branchB : Except String τ)
    (writeA writeB : τ → Except String Unit) : RunResult τ :=
  match branchA with
  | .error e => .fatal e []
  | .ok ev =>
    match branchB with
    | .error e => .fatal e []
    | .ok poi =>
      match writeA ev with
      | .error e => .fatal e []
      | .ok _ =>
        match writeB poi with
        | .error e => .fatal e [(EVENT_PREDICTED_TABLE, ev)]
        | .ok _ =>
          .done [(EVENT_PREDICTED_TABLE, ev), (PERSON_OF_INTEREST_PREDICTED_TABLE, poi)]

/-! ### Specification gadgets used by the theorems -/

/-- A well-formed entity group in ascending timestamp order: `n` complete
START/END pairs, i.e. the events alternate `13, 9, 13, 9, …`. -/
inductive AltPairs : ℕ → List Row → Prop
  | nil : AltPairs 0 []
  | pair (s e : Row) (rest : List Row) (n : ℕ) (hs : s.event = 13) (he : e.event = 9)
      (h : AltPairs n rest) : AltPairs (n + 1) (s :: e :: rest)

/-- The feature values `_process_facility_df` computes along a well-formed
alternating group in ascending order, starting from pair counter `c`:
a zero placeholder for each START, and for each END the seconds component
of the pair duration, the haversine distance, and the incremented counter. -/
def pairVals (hav : Hav) : ℕ → List Row → List FeatVals
  | c, s :: e :: rest =>
    ⟨0, 0, 0⟩ ::
    ⟨tdSeconds (e.timestamp - s.timestamp),
     hav e.event_latitude e.event_longitude e.facility_latitude e.facility_longitude,
     c + 1⟩ :: pairVals hav (c + 1) rest
  | _, _ => []

/-- The featurized records of the END rows of a well-formed alternating
group in ascending order, starting from pair counter `c` (the output of
`get_save_and_exit_df` for that group, read in chronological order). -/
def pairRecords (hav : Hav) : ℕ → List Row → List FeatRow
  | c, s :: e :: rest =>
    ⟨e, tdSeconds (e.timestamp - s.timestamp),
     hav e.event_latitude e.event_longitude e.facility_latitude e.facility_longitude,
     c + 1⟩ :: pairRecords hav (c + 1) rest
  | _, _ => []

/-- Total version of `createFeaturesWalk` for the case where a START has
already been seen: the walk can then never fail, because the open start is
never cleared.  `ts` is the open start timestamp, `c` the pair counter. -/
def walkPure (hav : Hav) : ℤ → ℕ → List Row → List FeatVals
  | _, _, [] => []
  | ts, c, r :: rs =>
    if r.event = 13 then ⟨0, 0, 0⟩ :: walkPure hav r.timestamp c rs
    else if r.event = 9 then
      ⟨tdSeconds (r.timestamp - ts),
       hav r.event_latitude r.event_longitude r.facility_latitude r.facility_longitude,
       c + 1⟩ :: walkPure hav ts (c + 1) rs
    else walkPure hav ts c rs

/-- Timestamp of the most recent START in `p`, defaulting to `d` when `p`
contains none (the state of `start_time` after walking `p`). -/
def lastStartTs (d : ℤ) : List Row → ℤ
  | [] => d
  | r :: p => lastStartTs (if r.event = 13 then r.timestamp else d) p

/-- Number of END events in a list of rows (the pair-counter increment
contributed by walking them). -/
def endCount (p : List Row) : ℕ := (p.filter (fun r => r.event = 9)).length

/-- The 7-day window the code actually averages over for a row `r` of a
group `df`: the rows whose timestamps lie in `[r.timestamp,
r.timestamp + 7 days]`, both endpoints included — a window looking
**forward** in time from `r`. -/
def leadWindow (df : List FeatRow) (r : FeatRow) : List FeatRow :=
  df.filter (fun x =>
    r.row.timestamp ≤ x.row.timestamp ∧ x.row.timestamp ≤ r.row.timestamp + 604800)

/-! ### Concrete inputs for counterexamples and witnesses -/

/-- A concrete stand-in for the external haversine function. -/
def hav0 : Hav := fun _ _ _ _ => 0

/-- Row constructor for concrete inputs: timestamp, event type, facility
uuid, actor id; all coordinates and the revision are zero. -/
def mkRow (t : ℤ) (ev : ℕ) (uuid : ℕ) (pid : ℕ) : Row :=
  ⟨t, ev, 0, 0, 0, 0, 0, pid, uuid⟩

/-- A well-formed two-pair group, in the descending row order the SQL query
delivers: chronologically `START@0, END@10, START@20, END@30`. -/
def dfTwoPairs : List Row := [mkRow 30 9 0 0, mkRow 20 13 0 0, mkRow 10 9 0 0, mkRow 0 13 0 0]

/-- A single pair whose duration is 86401 seconds (one day and one second),
in descending row order. -/
def dfLongPair : List Row := [mkRow 86401 9 0 0, mkRow 0 13 0 0]

/-- Two entity groups in one descending dataframe: facility 1 has an END
with no prior START (`END@1`) followed by a valid pair
(`START@2, END@3`); facility 2 has one valid pair (`START@4, END@5`). -/
def dfMalformed : List Row :=
  [mkRow 5 9 2 0, mkRow 4 13 2 0, mkRow 3 9 1 0, mkRow 2 13 1 0, mkRow 1 9 1 0]

/-- A featurized END row of actor 7 at timestamp 0 with distance 10. -/
def frEarly : FeatRow := ⟨mkRow 0 9 0 7, 0, 10, 1⟩

/-- A featurized END row of actor 7 one day later with distance 30. -/
def frLate : FeatRow := ⟨mkRow 86400 9 0 7, 0, 30, 2⟩

/-- Concrete START row for the double-END walk witness. -/
def rowStart0 : Row := mkRow 0 13 0 0

/-- Concrete first END row for the double-END walk witness. -/
def rowEnd1 : Row := mkRow 7 9 0 0

/-- Concrete second END row for the double-END walk witness. -/
def rowEnd2 : Row := mkRow 11 9 0 0

/-! ### Sorting lemmas -/

theorem rowLE_iff (a b : Row) : rowLE a b ↔ a.timestamp ≤ b.timestamp := Iff.rfl

theorem orderedInsert_of_forall_not {x : Row} :
    ∀ {m : List Row}, (∀ y ∈ m, ¬ rowLE x y) → List.orderedInsert rowLE x m = m ++ [x]
  | [], _ => rfl
  | y :: m, h => by
    have hy : ¬ rowLE x y := h y (List.mem_cons_self y m)
    simp only [List.orderedInsert, if_neg hy]
    rw [orderedInsert_of_forall_not (fun z hz => h z (List.mem_cons_of_mem y hz))]
    rfl

/-- Sorting a strictly descending dataframe ascending just reverses it. -/
theorem sortAsc_of_strictDesc :
    ∀ {l : List Row}, l.Pairwise (fun a b => b.timestamp < a.timestamp) → sortAsc l = l.reverse
  | [], _ => rfl
  | x :: l, h => by
    rcases List.pairwise_cons.mp h with ⟨hx, hl⟩
    show List.orderedInsert rowLE x (sortAsc l) = (x :: l).reverse
    rw [sortAsc_of_strictDesc hl, orderedInsert_of_forall_not, List.reverse_cons]
    intro y hy hle
    exact absurd (hx y (List.mem_reverse.mp hy)) (not_lt.mpr ((rowLE_iff x y).mp hle))

/-! ### Walk lemmas -/

/-- Once a START has been seen, the walk never fails: the open start is
never cleared, so every later END subtracts from some start timestamp. -/
theorem createFeaturesWalk_some (hav : Hav) :
    ∀ (l : List Row) (ts : ℤ) (c : ℕ),
      createFeaturesWalk hav (some ts) c l = .ok (walkPure hav ts c l)
  | [], _, _ => rfl
  | r :: rs, ts, c => by
    by_cases h13 : r.event = 13
    · simp [createFeaturesWalk, walkPure, h13, Except.map, createFeaturesWalk_some hav rs]
    · by_cases h9 : r.event = 9
      · simp [createFeaturesWalk, walkPure, h13, h9, Except.map, createFeaturesWalk_some hav rs]
      · simp [createFeaturesWalk, walkPure, h13, h9, Except.map, createFeaturesWalk_some hav rs]

/-- Walking `p ++ l` walks `p`, then walks `l` from the last open start of
`p` (defaulting to the incoming one) with the counter advanced by the
number of ENDs in `p`. -/
theorem walkPure_append (hav : Hav) :
    ∀ (p l : List Row) (ts : ℤ) (c : ℕ),
      walkPure hav ts c (p ++ l) =
        walkPure hav ts c p ++ walkPure hav (lastStartTs ts p) (c + endCount p) l
  | [], l, ts, c => by simp [walkPure, lastStartTs, endCount]
  | r :: p, l, ts, c => by
    by_cases h13 : r.event = 13
    · simp only [List.cons_append, walkPure, h13, List.append_eq, walkPure_append hav p l,
        lastStartTs, endCount, List.filter_cons, if_true]
      simp [h13, endCount, Nat.add_comm, Nat.add_left_comm, Nat.add_assoc]
    · by_cases h9 : r.event = 9
      · simp only [List.cons_append, walkPure, h13, h9, List.append_eq,
          walkPure_append hav p l, lastStartTs, endCount, List.filter_cons]
        simp [h13, h9, endCount, Nat.add_comm, Nat.add_left_comm, Nat.add_assoc]
      · simp only [List.cons_append, walkPure, h13, h9, List.append_eq,
          walkPure_append hav p l, lastStartTs, endCount, List.filter_cons]
        simp [h13, h9, endCount]

/-! ### The walk on well-formed alternating groups -/

theorem walk_altPairs (hav : Hav) {n : ℕ} :
    ∀ {l : List Row}, AltPairs n l → ∀ (st : Option ℤ) (c : ℕ),
      createFeaturesWalk hav st c l = .ok (pairVals hav c l) := by
  intro l h
  induction h with
  | nil => intro st c; rfl
  | pair s e rest m hs he hrest ih =>
    intro st c
    simp [createFeaturesWalk, hs, he, pairVals, Except.map, ih]

theorem pairVals_length (hav : Hav) {n : ℕ} :
    ∀ {l : List Row}, AltPairs n l → ∀ c, (pairVals hav c l).length = l.length := by
  intro l h
  induction h with
  | nil => intro c; rfl
  | pair s e rest m hs he hrest ih => intro c; simp [pairVals, ih]

theorem pairRecords_length (hav : Hav) {n : ℕ} :
    ∀ {l : List Row}, AltPairs n l → ∀ c, (pairRecords hav c l).length = n := by
  intro l h
  induction h with
  | nil => intro c; rfl
  | pair s e rest m hs he hrest ih => intro c; simp [pairRecords, ih]

/-- Along a well-formed group the END records carry the counter values
`c+1, c+2, …` in chronological order. -/
theorem pairRecords_counts (hav : Hav) {n : ℕ} :
    ∀ {l : List Row}, AltPairs n l → ∀ c,
      (pairRecords hav c l).map (·.save_and_exit_count) =
        (List.range n).map (fun i => c + 1 + i) := by
  intro l h
  induction h with
  | nil => intro c; rfl
  | pair s e rest m hs he hrest ih =>
    intro c
    rw [List.range_succ_eq_map]
    simp only [pairRecords, List.map_cons, ih (c + 1), List.map_map]
    congr 1
    apply List.map_congr_left
    intro i _
    simp only [Function.comp_apply, Nat.succ_eq_add_one]
    omega

/-- Every elapsed_time produced for a well-formed group lies in
`[0, 86400)`: it is the seconds component of the pair's timedelta. -/
theorem pairRecords_elapsed_bounds (hav : Hav) {n : ℕ} :
    ∀ {l : List Row}, AltPairs n l → ∀ c, ∀ fr ∈ pairRecords hav c l,
      0 ≤ fr.elapsed_time ∧ fr.elapsed_time < 86400 := by
  intro l h
  induction h with
  | nil => intro c fr hfr; cases hfr
  | pair s e rest m hs he hrest ih =>
    intro c fr hfr
    rcases List.mem_cons.mp hfr with hfr | hfr
    · subst hfr
      refine ⟨Int.emod_nonneg _ (by norm_num), Int.emod_lt_of_pos _ (by norm_num)⟩
    · exact ih (c + 1) fr hfr

/-- Filtering the featurized rows of a well-formed ascending group down to
END rows yields exactly the pair records. -/
theorem zipWith_filter_altPairs (hav : Hav) {n : ℕ} :
    ∀ {l : List Row}, AltPairs n l → ∀ c,
      (List.zipWith mkFeatRow l (pairVals hav c l)).filter (fun fr => fr.row.event = 9)
        = pairRecords hav c l := by
  intro l h
  induction h with
  | nil => intro c; rfl
  | pair s e rest m hs he hrest ih =>
    intro c
    simp [pairVals, mkFeatRow, List.filter_cons, hs, he, pairRecords, ih]

/-! ### Grouping lemmas -/

theorem dedup_const {α : Type} [DecidableEq α] {a : α} :
    ∀ {l : List α}, l ≠ [] → (∀ x ∈ l, x = a) → l.dedup = [a]
  | [], h, _ => absurd rfl h
  | [x], _, hx => by
    rw [hx x (List.mem_singleton_self x)]
    simp
  | x :: y :: l, _, hx => by
    have ih := dedup_const (l := y :: l) (by simp)
      (fun z hz => hx z (List.mem_cons_of_mem x hz))
    rw [hx x (List.mem_cons_self x (y :: l)), List.dedup_cons_of_mem, ih]
    rw [← hx y (List.mem_cons_of_mem x (List.mem_cons_self y l))]
    exact List.mem_cons_self y l

/-- `df.groupby(key)` of a dataframe whose rows all share one key value is
the single group consisting of the whole dataframe. -/
theorem groupByKey_single {α : Type} (key : α → ℕ) {l : List α} {a : ℕ}
    (hne : l ≠ []) (hkey : ∀ x ∈ l, key x = a) :
    groupByKey key l = [l] := by
  unfold groupByKey
  have h1 : (l.map key).dedup = [a] := by
    refine dedup_const (by simpa using hne) ?_
    intro x hx
    rcases List.mem_map.mp hx with ⟨y, hy, rfl⟩
    exact hkey y hy
  have h2 : l.filter (fun r => key r = a) = l := by
    refine List.filter_eq_self.mpr ?_
    intro x hx
    simpa using hkey x hx
  rw [h1]
  simp [List.insertionSort, List.orderedInsert, h2]

/-! ### The featurizer on well-formed descending groups -/

/-- `_process_facility_df` on a strictly descending well-formed group:
the reversal of the feature lists realigns them with the descending row
order, so the output is the reversed zip of the chronological rows with
their chronological feature values. -/
theorem process_facility_df_spec (hav : Hav) {df : List Row} {n : ℕ}
    (hdesc : df.Pairwise (fun a b => b.timestamp < a.timestamp))
    (halt : AltPairs n df.reverse) :
    process_facility_df hav df =
      .ok ((List.zipWith mkFeatRow df.reverse (pairVals hav 0 df.reverse)).reverse) := by
  unfold process_facility_df
  rw [sortAsc_of_strictDesc hdesc, walk_altPairs hav halt none 0]
  have hlen : (pairVals hav 0 df.reverse).reverse.length = df.length := by
    rw [List.length_reverse, pairVals_length hav halt 0, List.length_reverse]
  simp only [hlen, if_true, eq_self_iff_true]
  have hzip : (List.zipWith mkFeatRow df.reverse (pairVals hav 0 df.reverse)).reverse
      = List.zipWith mkFeatRow df (pairVals hav 0 df.reverse).reverse := by
    rw [List.reverse_zipWith, List.reverse_reverse]
    exact (pairVals_length hav halt 0).symm
  rw [hzip]

/-- `get_save_and_exit_df` on a dataframe holding one strictly descending
well-formed group: the group survives featurization and the END rows come
out as the chronologically ordered pair records, reversed (the dataframe's
descending row order). -/
theorem get_save_and_exit_df_spec (hav : Hav) {df : List Row} {n u : ℕ}
    (hne : df ≠ [])
    (huuid : ∀ r ∈ df, r.facility_uuid = u)
    (hdesc : df.Pairwise (fun a b => b.timestamp < a.timestamp))
    (halt : AltPairs n df.reverse) :
    get_save_and_exit_df hav df = .ok ((pairRecords hav 0 df.reverse).reverse) := by
  unfold get_save_and_exit_df create_event_data_features
  rw [groupByKey_single (fun r => r.facility_uuid) hne huuid]
  rw [List.filterMap_cons]
  rw [process_facility_df_spec hav hdesc halt]
  simp only [Except.toOption, List.filterMap_nil]
  simp only [List.isEmpty_cons, Bool.false_eq_true, if_false, List.flatten_cons,
    List.flatten_nil, List.append_nil, Except.map]
  rw [List.filter_reverse, zipWith_filter_altPairs hav halt 0]

/-! ### Claim C1 -/

/-- C1, counterexample: on the well-formed two-pair group `dfTwoPairs`
(delivered, as the pipeline does, in descending timestamp order) the
output's save_and_exit_count column reads `[2, 1]` — the values 1..N appear
strictly **decreasing** in the output's row order, so the claim that they
are strictly increasing in emission order of the output is false. -/
theorem c1_counterexample :
    (get_save_and_exit_df hav0 dfTwoPairs).map (fun l => l.map (·.save_and_exit_count))
      = .ok [2, 1]
    ∧ ¬ List.Chain' (· < ·) [2, 1] := by
  refine ⟨rfl, fun h => ?_⟩
  rcases List.chain'_cons.mp h with ⟨h1, _⟩
  omega

/-- C1 (amended): for every well-formed entity group with `n ≥ 1`
START/END pairs, given in the descending row order the SQL query delivers,
`get_save_and_exit_df` emits exactly `n` FeaturizedRecords whose
save_and_exit_count values are `1..n` strictly increasing in chronological
order — i.e. strictly decreasing in the output's (reverse-chronological)
row order. -/
theorem c1_featurizer_counts (hav : Hav) {df : List Row} {n u : ℕ}
    (hn : 1 ≤ n)
    (huuid : ∀ r ∈ df, r.facility_uuid = u)
    (hdesc : df.Pairwise (fun a b => b.timestamp < a.timestamp))
    (halt : AltPairs n df.reverse) :
    ∃ out, get_save_and_exit_df hav df = .ok out ∧
      out.length = n ∧
      (out.map (·.save_and_exit_count)).reverse = (List.range n).map (fun i => i + 1) := by
  have hne : df ≠ [] := by
    intro h
    subst h
    cases halt
    omega
  refine ⟨_, get_save_and_exit_df_spec hav hne huuid hdesc halt, ?_, ?_⟩
  · rw [List.length_reverse, pairRecords_length hav halt 0]
  · rw [List.map_reverse, List.reverse_reverse, pairRecords_counts hav halt 0]
    apply List.map_congr_left
    intro i _
    omega

/-- C1 witness: the amended theorem applied to the concrete two-pair group. -/
theorem c1_witness :
    ∃ out, get_save_and_exit_df hav0 dfTwoPairs = .ok out ∧
      out.length = 2 ∧
      (out.map (·.save_and_exit_count)).reverse = (List.range 2).map (fun i => i + 1) := by
  refine c1_featurizer_counts hav0 (u := 0) (by norm_num) (by decide) (by decide) ?_
  show AltPairs 2 [mkRow 0 13 0 0, mkRow 10 9 0 0, mkRow 20 13 0 0, mkRow 30 9 0 0]
  exact .pair _ _ _ _ rfl rfl (.pair _ _ _ _ rfl rfl .nil)

/-! ### Claim C4 -/

/-- C4, counterexample: the pair `START@0, END@86401` (duration one day and
one second) is emitted with `elapsed_time = 1`, because
`pandas.Timedelta.seconds` is the seconds **component** of the timedelta,
not the clamped total.  The claim's value — whole seconds clamped to be
non-negative, `max (86401 - 0) 0 = 86401` — differs. -/
theorem c4_counterexample :
    (get_save_and_exit_df hav0 dfLongPair).map (fun l => l.map (·.elapsed_time)) = .ok [1]
    ∧ max ((86401 : ℤ) - 0) 0 = 86401 ∧ (1 : ℤ) ≠ 86401 := by
  exact ⟨rfl, by decide, by decide⟩

/-- C4 (amended): for every completed pair of a well-formed descending
group, the emitted elapsed_time is the seconds component of the pair's
timedelta, `(END.timestamp - START.timestamp) mod 86400` (see
`pairRecords`, whose elapsed field is `tdSeconds` of the pair duration);
in particular `0 ≤ elapsed_time < 86400` for every emitted record. -/
theorem c4_elapsed_seconds_component (hav : Hav) {df : List Row} {n u : ℕ}
    (hn : 1 ≤ n)
    (huuid : ∀ r ∈ df, r.facility_uuid = u)
    (hdesc : df.Pairwise (fun a b => b.timestamp < a.timestamp))
    (halt : AltPairs n df.reverse) :
    ∃ out, get_save_and_exit_df hav df = .ok out ∧
      out.reverse = pairRecords hav 0 df.reverse ∧
      ∀ fr ∈ out, 0 ≤ fr.elapsed_time ∧ fr.elapsed_time < 86400 := by
  have hne : df ≠ [] := by
    intro h
    subst h
    cases halt
    omega
  refine ⟨_, get_save_and_exit_df_spec hav hne huuid hdesc halt, List.reverse_reverse _, ?_⟩
  intro fr hfr
  exact pairRecords_elapsed_bounds hav halt 0 fr (List.mem_reverse.mp hfr)

/-- C4 witness: the amended theorem applied to the one-day-and-one-second
pair. -/
theorem c4_witness :
    ∃ out, get_save_and_exit_df hav0 dfLongPair = .ok out ∧
      out.reverse = pairRecords hav0 0 dfLongPair.reverse ∧
      ∀ fr ∈ out, 0 ≤ fr.elapsed_time ∧ fr.elapsed_time < 86400 := by
  refine c4_elapsed_seconds_component hav0 (n := 1) (u := 0) (by norm_num) (by decide) (by decide) ?_
  show AltPairs 1 [mkRow 0 13 0 0, mkRow 86401 9 0 0]
  exact .pair _ _ _ _ rfl rfl .nil

/-! ### Claim C5 -/

/-- C5, counterexample: in `dfMalformed`, facility 1 has an END with no
prior START plus one perfectly valid pair, and facility 2 has one valid
pair.  The output contains records of facility 2 only — facility 1's valid
pair is lost because the whole group is dropped — while the diagnostic log
names facility 1.  The claim that the group still yields records for its
other valid pairs is false. -/
theorem c5_counterexample :
    (get_save_and_exit_df hav0 dfMalformed).map (fun l => l.map (·.row.facility_uuid))
      = .ok [2]
    ∧ create_event_data_features_log hav0 (groupByKey (·.facility_uuid) dfMalformed) = [1] := by
  exact ⟨rfl, rfl⟩

/-- C5 (amended): an END with no open START makes the **whole group** fail:
`_process_facility_df` raises on it, `create_event_data_features` catches
the exception, drops the entire group (including its other valid pairs)
from the output, logs the group's facility_uuid, and processes the
remaining groups unaffected. -/
theorem c5_group_failure (hav : Hav) (gs1 gs2 : List (List Row)) (g : List Row)
    (e : Row) (rest : List Row)
    (hsort : sortAsc g = e :: rest) (he : e.event = 9) :
    (∃ msg, process_facility_df hav g = .error msg)
    ∧ create_event_data_features hav (gs1 ++ g :: gs2)
        = create_event_data_features hav (gs1 ++ gs2)
    ∧ ∀ u, g.head?.map (·.facility_uuid) = some u →
        u ∈ create_event_data_features_log hav (gs1 ++ g :: gs2) := by
  have herr : process_facility_df hav g
      = .error "TypeError: unsupported operand type for Timestamp and str" := by
    unfold process_facility_df
    rw [hsort]
    simp [createFeaturesWalk, he]
  refine ⟨⟨_, herr⟩, ?_, ?_⟩
  · unfold create_event_data_features
    simp only [List.filterMap_append, List.filterMap_cons, herr, Except.toOption]
  · intro u hu
    refine List.mem_filterMap.mpr ⟨g, by simp, ?_⟩
    rw [herr]
    exact hu

/-- C5 witness: the amended theorem applied to the concrete malformed
group of `dfMalformed` sitting next to the valid facility-2 group. -/
theorem c5_witness :
    (∃ msg, process_facility_df hav0 [mkRow 3 9 1 0, mkRow 2 13 1 0, mkRow 1 9 1 0]
        = .error msg)
    ∧ create_event_data_features hav0
        ([] ++ [mkRow 3 9 1 0, mkRow 2 13 1 0, mkRow 1 9 1 0] :: [[mkRow 5 9 2 0, mkRow 4 13 2 0]])
        = create_event_data_features hav0 ([] ++ [[mkRow 5 9 2 0, mkRow 4 13 2 0]])
    ∧ ∀ u, ([mkRow 3 9 1 0, mkRow 2 13 1 0, mkRow 1 9 1 0].head?).map (·.facility_uuid) = some u →
        u ∈ create_event_data_features_log hav0
          ([] ++ [mkRow 3 9 1 0, mkRow 2 13 1 0, mkRow 1 9 1 0] :: [[mkRow 5 9 2 0, mkRow 4 13 2 0]]) :=
  c5_group_failure hav0 [] [[mkRow 5 9 2 0, mkRow 4 13 2 0]]
    [mkRow 3 9 1 0, mkRow 2 13 1 0, mkRow 1 9 1 0]
    (mkRow 1 9 1 0) [mkRow 2 13 1 0, mkRow 3 9 1 0] rfl rfl

/-! ### Claim C9 -/

/-- C9 (confirmed): when the featurizer's input has no entity groups, or
every group raises and is excluded, `create_event_data_features` raises
(`pd.concat` of an empty list) instead of returning an empty output. -/
theorem c9_no_empty_concat (hav : Hav) (dfs : List (List Row))
    (h : dfs = [] ∨ ∀ g ∈ dfs, ∃ msg, process_facility_df hav g = .error msg) :
    ∃ msg, create_event_data_features hav dfs = .error msg := by
  refine ⟨"ValueError: No objects to concatenate", ?_⟩
  have hproc : dfs.filterMap (fun g => (process_facility_df hav g).toOption) = [] := by
    rcases h with rfl | h
    · rfl
    · refine List.filterMap_eq_nil_iff.mpr ?_
      intro g hg
      rcases h g hg with ⟨msg, hmsg⟩
      rw [hmsg]
      rfl
  unfold create_event_data_features
  rw [hproc]
  rfl

/-- C9 witness: the empty input raises. -/
theorem c9_witness : ∃ msg, create_event_data_features hav0 [] = .error msg :=
  c9_no_empty_concat hav0 [] (Or.inl rfl)

/-! ### Claim C10 -/

/-- C10 (confirmed): the open start is never cleared.  After an initial
START `s`, the walk of any continuation `p ++ e :: l` succeeds, and the END
`e` emits a record whose counter is one more than the number of ENDs before
it and whose elapsed_time is measured from the **most recent START's**
timestamp (`lastStartTs s.timestamp p` — the initial `s` if `p` holds no
further START, even when `s` was already consumed by an earlier END in
`p`). -/
theorem c10_open_start_persists (hav : Hav) (s e : Row) (p l : List Row)
    (hs : s.event = 13) (he : e.event = 9) :
    createFeaturesWalk hav none 0 (s :: (p ++ e :: l)) =
      .ok (⟨0, 0, 0⟩ ::
        (walkPure hav s.timestamp 0 p ++
          ⟨tdSeconds (e.timestamp - lastStartTs s.timestamp p),
           hav e.event_latitude e.event_longitude e.facility_latitude e.facility_longitude,
           endCount p + 1⟩ ::
            walkPure hav (lastStartTs s.timestamp p) (endCount p + 1) l)) := by
  have h1 : createFeaturesWalk hav none 0 (s :: (p ++ e :: l)) =
      (createFeaturesWalk hav (some s.timestamp) 0 (p ++ e :: l)).map (⟨0, 0, 0⟩ :: ·) := by
    simp [createFeaturesWalk, hs]
  rw [h1, createFeaturesWalk_some hav, walkPure_append hav]
  simp [walkPure, he, Except.map]

/-- C10 witness: `START@0, END@7, END@11` — the second END still emits,
with counter 2 and elapsed time measured from the START at 0 that the
first END already consumed. -/
theorem c10_witness :
    createFeaturesWalk hav0 none 0 (rowStart0 :: ([rowEnd1] ++ rowEnd2 :: [])) =
      .ok (⟨0, 0, 0⟩ ::
        (walkPure hav0 rowStart0.timestamp 0 [rowEnd1] ++
          ⟨tdSeconds (rowEnd2.timestamp - lastStartTs rowStart0.timestamp [rowEnd1]),
           hav0 rowEnd2.event_latitude rowEnd2.event_longitude rowEnd2.facility_latitude
             rowEnd2.facility_longitude,
           endCount [rowEnd1] + 1⟩ ::
            walkPure hav0 (lastStartTs rowStart0.timestamp [rowEnd1]) (endCount [rowEnd1] + 1) [])) :=
  c10_open_start_persists hav0 rowStart0 rowEnd2 [rowEnd1] [] rfl rfl

/-! ### Rolling-mean lemmas -/

theorem rollingGo_append :
    ∀ (l1 l2 pre : List FeatRow),
      rollingGo pre (l1 ++ l2) = rollingGo pre l1 ++ rollingGo (pre ++ l1) l2
  | [], l2, pre => by simp [rollingGo]
  | r :: l1, l2, pre => by
    simp only [List.cons_append, rollingGo, List.append_eq]
    rw [rollingGo_append l1 l2 (pre ++ [r])]
    simp [List.append_assoc]

theorem rollingGo_length : ∀ (l pre : List FeatRow), (rollingGo pre l).length = l.length
  | [], _ => rfl
  | r :: l, pre => by simp [rollingGo, rollingGo_length l]

/-- `get_means_df` of a nonempty single-actor dataframe already sorted
descending is one rolling pass over it. -/
theorem get_means_df_single {df : List FeatRow} {a : ℕ}
    (hne : df ≠ [])
    (hact : ∀ x ∈ df, x.row.person_of_interest_id = a)
    (hsorted : df.Pairwise (fun x y => y.row.timestamp ≤ x.row.timestamp)) :
    get_means_df df = rollingGo [] df := by
  unfold get_means_df
  rw [groupByKey_single (fun fr => fr.row.person_of_interest_id) hne hact]
  have hs : sortDesc df = df := List.Sorted.insertionSort_eq hsorted
  simp [hs]

/-- In a strictly descending group `p ++ r :: s`, the pandas window at `r`
(the already-passed rows and `r`, cut at `r.timestamp + 7d`) is exactly the
rows of the whole group with timestamps in `[r.timestamp,
r.timestamp + 7d]`. -/
theorem windowAt_eq_leadWindow {p s : List FeatRow} {r : FeatRow}
    (hdesc : (p ++ r :: s).Pairwise (fun x y => y.row.timestamp < x.row.timestamp)) :
    windowAt p r = leadWindow (p ++ r :: s) r := by
  rcases List.pairwise_append.mp hdesc with ⟨hp, hrs, hcross⟩
  have hpr : ∀ x ∈ p, r.row.timestamp < x.row.timestamp := by
    intro x hx
    exact hcross x hx r (List.mem_cons_self r s)
  have hsr : ∀ x ∈ s, x.row.timestamp < r.row.timestamp :=
    (List.pairwise_cons.mp hrs).1
  unfold windowAt leadWindow
  rw [List.filter_append, List.filter_append, List.filter_cons]
  have h1 : List.filter (fun x => decide (x.row.timestamp ≤ r.row.timestamp + 604800)) p
      = List.filter (fun x => decide (r.row.timestamp ≤ x.row.timestamp
          ∧ x.row.timestamp ≤ r.row.timestamp + 604800)) p := by
    apply List.filter_congr
    intro x hx
    simp only [decide_eq_decide]
    have := hpr x hx
    constructor
    · intro hu; exact ⟨this.le, hu⟩
    · intro hu; exact hu.2
  have h2 : List.filter (fun x => decide (r.row.timestamp ≤ x.row.timestamp
      ∧ x.row.timestamp ≤ r.row.timestamp + 604800)) s = [] := by
    apply List.filter_eq_nil_iff.mpr
    intro x hx
    simp only [decide_eq_true_eq, not_and]
    intro hc
    exact absurd (hsr x hx) (not_lt.mpr hc)
  have hr : r.row.timestamp ≤ r.row.timestamp + 604800 := by omega
  rw [h1, List.filter_cons, h2]
  simp [hr]

/-! ### Claim C3 -/

/-- C3, counterexample: actor 7 has one record `frEarly` at timestamp 0
with distance 10.  Alone, its computed mean_distance is 10.  After the
record `frLate` — one day **later** — is added to the group, `frEarly`'s
computed mean_distance becomes 20: the rolling pass (sorted descending)
averages over the **leading** window `[t, t+7d]`, not the trailing one, so
appending a strictly later record changed an existing row's mean, and the
trailing-window value (10) is not what the code computes (20). -/
theorem c3_counterexample :
    (get_means_df [frEarly]).map (·.mean_distance) = [10]
    ∧ (get_means_df [frLate, frEarly]).map (·.mean_distance) = [30, 20]
    ∧ ((10 : ℚ) ≠ 20) := by
  have hA : get_means_df [frEarly] = rollingGo [] [frEarly] :=
    get_means_df_single (a := 7) (by simp) (by decide) (by decide)
  have hB : get_means_df [frLate, frEarly] = rollingGo [] [frLate, frEarly] :=
    get_means_df_single (a := 7) (by simp) (by decide) (by decide)
  refine ⟨?_, ?_, by norm_num⟩
  · rw [hA]
    norm_num [rollingGo, windowAt, avgOf, featDistance, frEarly, mkRow]
  · rw [hB]
    norm_num [rollingGo, windowAt, avgOf, featDistance, frEarly, frLate, mkRow]

/-- C3 (amended): for a single-actor group given in strictly descending
timestamp order, the mean computed for a row `r` is taken over exactly the
rows of the group whose timestamps lie in the **leading** 7-day window
`[r.timestamp, r.timestamp + 7d]` (both endpoints inclusive), for each of
the four features; consequently the means are anti-causal in the claim's
sense but invariant under appending records with strictly **earlier**
timestamps to the group. -/
theorem c3_leading_window_means (df p s : List FeatRow) (r : FeatRow) (a : ℕ)
    (hact : ∀ x ∈ df, x.row.person_of_interest_id = a)
    (hdesc : df.Pairwise (fun x y => y.row.timestamp < x.row.timestamp))
    (hdf : df = p ++ r :: s) :
    (get_means_df df)[p.length]? = some
      ⟨r, avgOf featElapsed (leadWindow df r), avgOf featDistance (leadWindow df r),
       avgOf featRevision (leadWindow df r), avgOf featCnt (leadWindow df r)⟩
    ∧ ∀ extra, (∀ x ∈ extra, x.row.person_of_interest_id = a) →
        ((df ++ extra).Pairwise (fun x y => y.row.timestamp < x.row.timestamp)) →
        (get_means_df (df ++ extra)).take df.length = get_means_df df := by
  have hne : df ≠ [] := by
    subst hdf
    simp
  have h1 : get_means_df df = rollingGo [] df :=
    get_means_df_single hne hact (hdesc.imp le_of_lt)
  constructor
  · rw [h1, hdf, rollingGo_append p (r :: s) []]
    rw [List.getElem?_append_right (by rw [rollingGo_length])]
    rw [rollingGo_length, Nat.sub_self, List.nil_append]
    show (rollingGo p (r :: s))[0]? = _
    rw [rollingGo]
    rw [List.getElem?_cons_zero]
    rw [windowAt_eq_leadWindow (hdf ▸ hdesc), ← hdf]
  · intro extra hex hdesc2
    have hact2 : ∀ x ∈ df ++ extra, x.row.person_of_interest_id = a := by
      intro x hx
      rcases List.mem_append.mp hx with hx | hx
      · exact hact x hx
      · exact hex x hx
    have h2 : get_means_df (df ++ extra) = rollingGo [] (df ++ extra) :=
      get_means_df_single (by simp [hdf]) hact2 (hdesc2.imp le_of_lt)
    rw [h2, rollingGo_append df extra [], h1]
    exact List.take_left' (rollingGo_length df [])

/-- C3 witness: the amended theorem applied to the two-record group of
actor 7. -/
theorem c3_witness :
    (get_means_df [frLate, frEarly])[(1 : ℕ)]? = some
      ⟨frEarly, avgOf featElapsed (leadWindow [frLate, frEarly] frEarly),
       avgOf featDistance (leadWindow [frLate, frEarly] frEarly),
       avgOf featRevision (leadWindow [frLate, frEarly] frEarly),
       avgOf featCnt (leadWindow [frLate, frEarly] frEarly)⟩
    ∧ ∀ extra, (∀ x ∈ extra, x.row.person_of_interest_id = 7) →
        (([frLate, frEarly] ++ extra).Pairwise
          (fun x y => y.row.timestamp < x.row.timestamp)) →
        (get_means_df ([frLate, frEarly] ++ extra)).take 2 = get_means_df [frLate, frEarly] :=
  c3_leading_window_means [frLate, frEarly] [frLate] [] frEarly 7
    (by decide) (by decide) rfl

/-! ### Percentile lemmas -/

/-- Splitting the weak count: values `≤ s` are the values `< s` plus the
values `= s`. -/
theorem length_filter_le_split (s : ℚ) :
    ∀ (ref : List ℚ), (ref.filter (fun x => x ≤ s)).length
      = (ref.filter (fun x => x < s)).length + (ref.filter (fun x => x = s)).length
  | [] => rfl
  | a :: ref => by
    have ih := length_filter_le_split s ref
    rcases lt_trichotomy a s with h | h | h
    · simp only [List.filter_cons, decide_eq_true_eq]
      rw [if_pos h.le, if_pos h, if_neg h.ne]
      simp only [List.length_cons, ih]
      omega
    · subst h
      simp [List.filter_cons, ih]
      omega
    · simp only [List.filter_cons, decide_eq_true_eq]
      rw [if_neg (not_le.mpr h), if_neg (not_lt.mpr h.le), if_neg (ne_of_gt h)]
      exact ih

/-- Filter-length monotonicity under predicate implication. -/
theorem length_filter_mono {p q : ℚ → Prop} [DecidablePred p] [DecidablePred q]
    (ref : List ℚ) (h : ∀ x, p x → q x) :
    (ref.filter (fun x => p x)).length ≤ (ref.filter (fun x => q x)).length := by
  rw [← List.countP_eq_length_filter, ← List.countP_eq_length_filter]
  refine List.countP_mono_left ?_
  intro x _ hx
  simpa using h x (by simpa using hx)

/-- `percentileofscore` with its let-bindings inlined. -/
theorem percentileofscore_eq (ref : List ℚ) (s : ℚ) :
    percentileofscore ref s =
      (((ref.filter (fun x => x < s)).length : ℚ)
        + ((ref.filter (fun x => x ≤ s)).length : ℚ)
        + (if (ref.filter (fun x => x < s)).length
              < (ref.filter (fun x => x ≤ s)).length then 1 else 0))
        * 50 / ref.length := rfl

/-! ### Claim C2 -/

/-- C2, counterexample: the code calls `scipy.stats.percentileofscore` with
its default `kind='rank'`, not the "mean" rule the claim describes: on the
claim's own example — reference distribution `[1,2,3,4,5]`, raw score 3 —
the code returns percentile 60, while the "mean" rule gives 50. -/
theorem c2_counterexample :
    get_score_and_percentile ⟨[3], [1, 2, 3, 4, 5]⟩ = ([3], [60])
    ∧ percentileOfScoreMeanRule [1, 2, 3, 4, 5] 3 = 50
    ∧ (60 : ℚ) ≠ 50 := by
  refine ⟨?_, ?_, by norm_num⟩
  · unfold get_score_and_percentile percentileofscore
    norm_num [List.filter]
  · unfold percentileOfScoreMeanRule
    norm_num [List.filter]

/-- C2 (amended): `get_score_and_percentile` returns the raw scores
unchanged and computes each percentile by scipy's default `'rank'` rule,
which equals the spec's "mean" percentile-of-score value **plus** an extra
`50/n` exactly when some reference value ties the score; on `[1,2,3,4,5]`
with raw score 3 this yields 60, not 50. -/
theorem c2_percentile_rank_rule (sc : Scores) :
    (get_score_and_percentile sc).1 = sc.predicted_decision_scores
    ∧ (get_score_and_percentile sc).2 = sc.predicted_decision_scores.map (fun x =>
        percentileOfScoreMeanRule sc.fitted_decision_scores x
          + (if 0 < (sc.fitted_decision_scores.filter (fun y => y = x)).length
             then (50 : ℚ) / sc.fitted_decision_scores.length else 0)) := by
  refine ⟨rfl, ?_⟩
  unfold get_score_and_percentile
  apply List.map_congr_left
  intro x _
  unfold percentileOfScoreMeanRule
  rw [percentileofscore_eq, length_filter_le_split x sc.fitted_decision_scores]
  rcases Nat.eq_zero_or_pos (sc.fitted_decision_scores.filter (fun y => y = x)).length
    with he | he
  · rw [he]
    rw [if_neg (by omega), if_neg (by omega)]
    push_cast
    ring
  · rw [if_pos (by omega), if_pos (by omega)]
    push_cast
    ring

/-! ### Claim C8 -/

/-- C8 (confirmed): the percentile computation is deterministic (a pure
function of its inputs) and monotone: with the same reference distribution,
a smaller raw score never gets a larger percentile. -/
theorem c8_percentile_deterministic_monotone :
    (∀ s₁ s₂ : Scores, s₁ = s₂ → get_score_and_percentile s₁ = get_score_and_percentile s₂)
    ∧ ∀ (ref : List ℚ) (a b : ℚ), a < b →
        percentileofscore ref a ≤ percentileofscore ref b := by
  refine ⟨fun s₁ s₂ h => by rw [h], ?_⟩
  intro ref a b hab
  have h1 : (ref.filter (fun x => x ≤ a)).length ≤ (ref.filter (fun x => x < b)).length :=
    length_filter_mono ref (fun x hx => lt_of_le_of_lt hx hab)
  have h2 : (ref.filter (fun x => x < a)).length ≤ (ref.filter (fun x => x < b)).length :=
    length_filter_mono ref (fun x hx => hx.trans hab)
  have h3 : (ref.filter (fun x => x ≤ a)).length ≤ (ref.filter (fun x => x ≤ b)).length :=
    length_filter_mono ref (fun x hx => hx.trans hab.le)
  have h0 : (ref.filter (fun x => x < a)).length ≤ (ref.filter (fun x => x ≤ a)).length :=
    length_filter_mono ref (fun x hx => hx.le)
  unfold percentileofscore
  rcases Nat.eq_zero_or_pos ref.length with hn | hn
  · rw [List.length_eq_zero] at hn
    subst hn
    simp
  · have hnQ : (0 : ℚ) < (ref.length : ℚ) := by exact_mod_cast hn
    rw [div_le_div_iff_of_pos_right hnQ,
      mul_le_mul_right (by norm_num : (0 : ℚ) < 50)]
    split_ifs with hia hib hib
    · exact_mod_cast (by omega :
        (ref.filter (fun x => x < a)).length + (ref.filter (fun x => x ≤ a)).length + 1
          ≤ (ref.filter (fun x => x < b)).length + (ref.filter (fun x => x ≤ b)).length + 1)
    · exact_mod_cast (by omega :
        (ref.filter (fun x => x < a)).length + (ref.filter (fun x => x ≤ a)).length + 1
          ≤ (ref.filter (fun x => x < b)).length + (ref.filter (fun x => x ≤ b)).length)
    · exact_mod_cast (by omega :
        (ref.filter (fun x => x < a)).length + (ref.filter (fun x => x ≤ a)).length
          ≤ (ref.filter (fun x => x < b)).length + (ref.filter (fun x => x ≤ b)).length + 1)
    · exact_mod_cast (by omega :
        (ref.filter (fun x => x < a)).length + (ref.filter (fun x => x ≤ a)).length
          ≤ (ref.filter (fun x => x < b)).length + (ref.filter (fun x => x ≤ b)).length)

/-- C8 witness: monotonicity at raw scores 0 < 1 against the reference
distribution `[1, 2]`. -/
theorem c8_witness : percentileofscore [1, 2] 0 ≤ percentileofscore [1, 2] 1 :=
  c8_percentile_deterministic_monotone.2 [1, 2] 0 1 (by norm_num)

/-! ### Batched attribution lemmas -/

/-- For positive batch size and a nonempty input, the sub-batches are the
first `size` rows followed by the sub-batches of the rest. -/
theorem batchSlices_cons {α : Type} {size : ℕ} (hsz : 0 < size)
    {data : List α} (hne : data ≠ []) :
    batchSlices size data = data.take size :: batchSlices size (data.drop size) := by
  have hlen : 1 ≤ data.length := List.length_pos.mpr hne
  unfold batchSlices
  rcases le_or_lt data.length size with hle | hlt
  · have hdrop : data.drop size = [] := List.drop_eq_nil_of_le hle
    have hm1 : (data.length + size - 1) / size = 1 :=
      Nat.div_eq_of_lt_le (by omega) (by omega)
    rw [hm1, hdrop]
    have h0 : (([] : List α).length + size - 1) / size = 0 :=
      Nat.div_eq_of_lt (by simp; omega)
    rw [h0]
    simp [List.range_succ]
  · have hm : (data.length + size - 1) / size = (data.length - 1) / size + 1 := by
      have h : data.length + size - 1 = (data.length - 1) + size := by omega
      rw [h, Nat.add_div_right _ hsz]
    have hm' : ((data.drop size).length + size - 1) / size = (data.length - 1) / size := by
      rw [List.length_drop]
      have h : data.length - size + size - 1 = data.length - 1 := by omega
      rw [h]
    rw [hm, hm', List.range_succ_eq_map]
    simp only [List.map_cons, Nat.zero_mul, List.drop_zero, List.map_map]
    congr 1
    apply List.map_congr_left
    intro j _
    simp only [Function.comp_apply]
    rw [List.drop_drop, Nat.succ_mul, Nat.add_comm size (j * size)]

/-- The sub-batches reassemble to the input. -/
theorem batchSlices_flatten {α : Type} {size : ℕ} (hsz : 0 < size) (data : List α) :
    (batchSlices size data).flatten = data := by
  by_cases hne : data = []
  · subst hne
    have h0 : (([] : List α).length + size - 1) / size = 0 :=
      Nat.div_eq_of_lt (by simp; omega)
    simp [batchSlices, h0]
  · rw [batchSlices_cons hsz hne, List.flatten_cons,
      batchSlices_flatten hsz (data.drop size)]
    exact List.take_append_drop size data
termination_by data.length
decreasing_by
  simp only [List.length_drop]
  have := List.length_pos.mpr hne
  omega

/-- Every sub-batch has at most `size` rows. -/
theorem batchSlices_length_le {α : Type} (size : ℕ) (data : List α) :
    ∀ c ∈ batchSlices size data, c.length ≤ size := by
  intro c hc
  unfold batchSlices at hc
  rcases List.mem_map.mp hc with ⟨k, _, rfl⟩
  rw [List.length_take]
  exact min_le_left _ _

/-! ### Claim C6 -/

/-- C6, counterexample: on an **empty** input matrix `get_shap_values`
raises (`pd.concat` receives zero sub-batch results), whereas a single
unbatched attribution call on the empty input returns the empty result —
so the output is not row-for-row identical to the unbatched call for every
input. -/
theorem c6_counterexample :
    get_shap_values (fun l : List ℕ => l.map (fun x => x + 1)) 1000 []
      = .error "ValueError: No objects to concatenate"
    ∧ ([] : List ℕ).map (fun x => x + 1) = [] :=
  ⟨rfl, rfl⟩

/-- C6 (amended): for every **nonempty** input and positive batch size,
`get_shap_values` splits the input into consecutive sub-batches of at most
`size` rows that reassemble to the input, and — the endpoint being a
row-wise map, and the asyncio gather returning results indexed by dispatch
position — its output equals the single unbatched call on the full input;
on an empty input it raises instead. -/
theorem c6_batched_equals_unbatched {α β : Type} (g : α → β) (endpoint : List α → List β)
    (size : ℕ) (data : List α) (hsz : 0 < size) (hne : data ≠ [])
    (hrow : ∀ l, endpoint l = l.map g) :
    (∀ c ∈ batchSlices size data, c.length ≤ size)
    ∧ (batchSlices size data).flatten = data
    ∧ get_shap_values endpoint size data = .ok (endpoint data) := by
  refine ⟨batchSlices_length_le size data, batchSlices_flatten hsz data, ?_⟩
  have hEmp : ((batchSlices size data).map endpoint).isEmpty = false := by
    rw [batchSlices_cons hsz hne]
    rfl
  show (if ((batchSlices size data).map endpoint).isEmpty = true
      then (Except.error "ValueError: No objects to concatenate" : Except String (List β))
      else .ok ((batchSlices size data).map endpoint).flatten)
    = .ok (endpoint data)
  rw [hEmp]
  simp only [Bool.false_eq_true, if_false]
  congr 1
  calc ((batchSlices size data).map endpoint).flatten
      = ((batchSlices size data).map (fun c => c.map g)).flatten := by
        congr 1
        exact List.map_congr_left (fun c _ => hrow c)
    _ = ((batchSlices size data).flatten).map g := (List.map_flatten g _).symm
    _ = data.map g := by rw [batchSlices_flatten hsz data]
    _ = endpoint data := (hrow data).symm

/-- C6 witness: the amended theorem at batch size 1000 on the concrete
input `[1, 2, 3]` with the row-wise endpoint mapping `x ↦ x + 1`. -/
theorem c6_witness :
    (∀ c ∈ batchSlices 1000 [1, 2, 3], c.length ≤ 1000)
    ∧ (batchSlices 1000 [1, 2, 3]).flatten = [1, 2, 3]
    ∧ get_shap_values (fun l : List ℕ => l.map (fun x => x + 1)) 1000 [1, 2, 3]
        = .ok ([1, 2, 3].map (fun x => x + 1)) :=
  c6_batched_equals_unbatched (fun x => x + 1) (fun l => l.map (fun x => x + 1))
    1000 [1, 2, 3] (by norm_num) (by simp) (fun _ => rfl)

/-! ### Claim C7 -/

/-- C7, counterexample: the event branch succeeds (producing table `4`)
but the actor branch raises; the run dies with the uncaught exception and
**nothing** is persisted — the surviving branch's scored table is not
written, so a failing branch does block the other branch. -/
theorem c7_counterexample :
    handler (τ := ℕ) (.ok 4) (.error "endpoint failure") (fun _ => .ok ()) (fun _ => .ok ())
      = .fatal "endpoint failure" [] := rfl

/-- C7 (amended): `handler` is a straight-line sequence with no exception
handling: a failure of either classification branch aborts the whole run
before any persistence — if the event branch fails the actor branch never
runs, and if the actor branch fails the already-computed event table is
still not persisted. -/
theorem c7_branch_failure_aborts {τ : Type} :
    (∀ (e : String) (b : Except String τ) (wA wB : τ → Except String Unit),
        handler (.error e) b wA wB = .fatal e [])
    ∧ (∀ (e : String) (t : τ) (wA wB : τ → Except String Unit),
        handler (.ok t) (.error e) wA wB = .fatal e []) :=
  ⟨fun _ _ _ _ => rfl, fun _ _ _ _ => rfl⟩

end MLAD
